import Mathlib

/-!
Verification development for the slackline message relay (src/slackline.go).

The embedding models the routing core: the channel key type, the channel-group
table construction with its duplicate check, outbound-token verification with
Go map zero-value semantics, the mention-rewriting scanner (the regex
`<@[^>]+>` realised as a left-to-right character automaton), the avatar fetch,
the per-peer forwarding loop, the webhook delivery error handling, and the
HTTP bridge handler control flow.
-/

/-- A channel key: pair of team id and channel id, from `type Channel struct`. -/
structure Channel where
  teamId : String
  channelId : String
deriving DecidableEq

/-- A user profile record, from the provider client: holds the original
profile image URL used for the message icon. -/
structure UserProfile where
  imageOriginal : String
deriving DecidableEq

/-- A user record returned by the provider user-info call: display name and
profile. -/
structure UserInfo where
  name : String
  profile : UserProfile
deriving DecidableEq

/-- Result of a provider `GetUserInfo` call: `found` is the err == nil case
carrying the user record; `notFound` is the error case, in which the returned
user pointer is nil. -/
inductive LookupResult where
  | found (user : UserInfo)
  | notFound
deriving DecidableEq

/-- The process configuration: the channel-group map and the outbound token
table, from `type Configuration struct` (assoc lists standing for the Go maps;
on a successfully built map keys are unique, so first-match lookup agrees with
Go map lookup). -/
structure Configuration where
  channelMap : List (Channel × List Channel)
  outboundTokens : List (Channel × String)

/-- Go map read `config.channelMap[c]`: a missing key yields the zero value,
the nil (empty) slice. -/
def mapLookup (m : List (Channel × List Channel)) (c : Channel) : List Channel :=
  match m.find? (fun p => decide (p.1 = c)) with
  | some p => p.2
  | none => []

/-- Go map read `config.outboundTokens[c]`: a missing key yields the zero
value, the empty string. -/
def lookupTokens (toks : List (Channel × String)) (c : Channel) : String :=
  match toks.find? (fun p => decide (p.1 = c)) with
  | some p => p.2
  | none => ""

/-- `func (c Channel) VerifyToken(token string) bool`: exact string equality
against the (possibly zero-value) table entry. -/
def Channel.VerifyToken (c : Channel) (cfg : Configuration) (token : String) : Bool :=
  decide (lookupTokens cfg.outboundTokens c = token)

/-- Keys of the channel map (for stating construction invariants). -/
def keysOf (m : List (Channel × List Channel)) : List Channel :=
  m.map Prod.fst

/-- Go presence test `_, present := channelMap[channel]`. -/
def hasKey (m : List (Channel × List Channel)) (c : Channel) : Bool :=
  m.any (fun p => decide (p.1 = c))

/-- Inner loop of `GetConfiguration` over one channel group: each channel of
the group is mapped to the group's full (shared) membership list; a channel
already present in the map aborts construction (the Go code panics). -/
def addGroup (full : List Channel) : List Channel → List (Channel × List Channel) → Option (List (Channel × List Channel))
  | [], m => some m
  | ch :: rest, m =>
    if hasKey m ch then none
    else addGroup full rest (m ++ [(ch, full)])

/-- Outer loop of `GetConfiguration` over the configured groups. -/
def buildChannelMapAux : List (List Channel) → List (Channel × List Channel) → Option (List (Channel × List Channel))
  | [], m => some m
  | g :: gs, m =>
    match addGroup g g m with
    | some m1 => buildChannelMapAux gs m1
    | none => none

/-- Channel-map construction from the configured channel groups
(`GetConfiguration`, lines 73-89): `none` models the fatal panic. -/
def buildChannelMap (groups : List (List Channel)) : Option (List (Channel × List Channel)) :=
  buildChannelMapAux groups []

/-- The association pairs a successful construction produces: every channel of
every group, in order, paired with its group's full membership list. -/
def groupPairs : List (List Channel) → List (Channel × List Channel)
  | [] => []
  | g :: gs => g.map (fun c => (c, g)) ++ groupPairs gs

/-- State of the mention scanner: outside any candidate match, just after an
unmatched `<`, or inside `<@...` accumulating the chars standing before the
closing `>`. -/
inductive ScanState where
  | plain
  | sawLt
  | inMention (buf : List Char)

/-- Text a pending scanner state stands for when input ends without a match. -/
def flushState : ScanState → List Char
  | ScanState.plain => []
  | ScanState.sawLt => ['<']
  | ScanState.inMention buf => '<' :: '@' :: buf

/-- The single left-to-right pass of `mentionRegexp.ReplaceAllStringFunc` for
the pattern `<@[^>]+>`: leftmost, non-overlapping matches; the match callback
`f` receives the chars between `<@` and `>` and yields the replacement, or
`none` when the callback aborts (nil-pointer panic). Non-matching text is
emitted unchanged. -/
def scanMentionsCore (f : List Char → Option (List Char)) : List Char → ScanState → List Char → Option (List Char)
  | [], st, acc => some (acc ++ flushState st)
  | ch :: rest, ScanState.plain, acc =>
    if ch = '<' then scanMentionsCore f rest ScanState.sawLt acc
    else scanMentionsCore f rest ScanState.plain (acc ++ [ch])
  | ch :: rest, ScanState.sawLt, acc =>
    if ch = '@' then scanMentionsCore f rest (ScanState.inMention []) acc
    else if ch = '<' then scanMentionsCore f rest ScanState.sawLt (acc ++ ['<'])
    else scanMentionsCore f rest ScanState.plain (acc ++ ['<', ch])
  | ch :: rest, ScanState.inMention buf, acc =>
    if ch = '>' then
      if buf = [] then scanMentionsCore f rest ScanState.plain (acc ++ ['<', '@', '>'])
      else
        match f buf with
        | some repl => scanMentionsCore f rest ScanState.plain (acc ++ repl)
        | none => none
    else scanMentionsCore f rest (ScanState.inMention (buf ++ [ch])) acc

/-- Replace every mention-markup match in a text, left to right. -/
def scanMentions (f : List Char → Option (List Char)) (l : List Char) : Option (List Char) :=
  scanMentionsCore f l ScanState.plain []

/-- `strings.Split(s, "|")` on a char list: the list of `|`-separated
segments (always nonempty). -/
def splitOnBar : List Char → List (List Char)
  | [] => [[]]
  | c :: rest =>
    match splitOnBar rest with
    | [] => [[c]]
    | seg :: segs =>
      if c = '|' then [] :: seg :: segs
      else (c :: seg) :: segs

/-- The match callback of `RewriteMentions` (lines 124-137), on the chars
between `<@` and `>`: with an inline `|`-delimited display name, take the
second `Split` segment; otherwise call the registry. The registry branch is
embedded exactly as written: on err == nil it logs "Unable to map" and keeps
the raw id, and on err != nil it reads `user.Name` from the nil user pointer,
modelled as `none` (panic). -/
def rewriteMatch (lookup : String → LookupResult) (inner : List Char) : Option (List Char) :=
  if inner.contains '|' then
    some ('@' :: (splitOnBar inner).getD 1 [])
  else
    match lookup inner.asString with
    | LookupResult.found _ => some ('@' :: inner)
    | LookupResult.notFound => none

/-- The transient message record, from `type slackMessage struct`. -/
structure SlackMessage where
  channel : Channel
  username : String
  text : String
  icon : String
  linkNames : Bool
deriving DecidableEq

/-- The message the bridge handler builds from the POST form fields: icon
empty, linkNames false (Go zero values). -/
def mkInboundMessage (tId cId uName text : String) : SlackMessage :=
  { channel := { teamId := tId, channelId := cId }, username := uName,
    text := text, icon := "", linkNames := false }

/-- `func (msg *slackMessage) RewriteMentions()`: run the replacement pass
over the message text; `none` models the pass aborting (nil user pointer
dereference in the registry branch). -/
def SlackMessage.RewriteMentions (lookup : String → LookupResult) (msg : SlackMessage) : Option SlackMessage :=
  match scanMentions (rewriteMatch lookup) msg.text.toList with
  | some cs => some { msg with text := cs.asString }
  | none => none

/-- `func (msg *slackMessage) FetchUserIcon() error`: on lookup success set
the icon from the profile image, on failure leave the message unchanged; the
Bool records whether an error was returned. -/
def SlackMessage.FetchUserIcon (lookup : String → LookupResult) (msg : SlackMessage) : SlackMessage × Bool :=
  match lookup msg.username with
  | LookupResult.found user => ({ msg with icon := user.profile.imageOriginal }, false)
  | LookupResult.notFound => (msg, true)

/-- Outcome of one outbound HTTP POST: transport failure, or a response with
status code, status line and body. -/
inductive HttpResult where
  | transportFailure (message : String)
  | response (statusCode : Nat) (statusLine : String) (body : String)

/-- `func (c Channel) WebhookPostMessage(...) error` (lines 149-174): a
transport error is returned as-is; a non-200 status becomes an error built
from the status line and body; a 200 response is success. -/
def Channel.WebhookPostMessage (c : Channel) (transport : HttpResult) : Except String Unit :=
  match transport with
  | HttpResult.transportFailure e => Except.error e
  | HttpResult.response statusCode statusLine body =>
    if statusCode ≠ 200 then Except.error (statusLine ++ " - " ++ body)
    else Except.ok ()

/-- The loop body of `func (c Channel) Forward(f func(Channel))`: visit every
entry of the channel's group list in order, skip the origin channel itself,
apply the delivery callback to each other entry, recording its outcome. -/
def forwardLoop (c : Channel) (f : Channel → Except String Unit) : List Channel → List (Channel × Except String Unit)
  | [] => []
  | other :: rest =>
    if c = other then forwardLoop c f rest
    else (other, f other) :: forwardLoop c f rest

/-- The peer channels `Forward` delivers to: the origin's group list minus
the origin itself. -/
def Channel.Forward (c : Channel) (m : List (Channel × List Channel)) : List Channel :=
  (mapLookup m c).filter (fun other => decide (c ≠ other))

/-- `Forward` with an explicit delivery callback: the attempted deliveries in
order, each with its outcome. -/
def Channel.ForwardRun (c : Channel) (m : List (Channel × List Channel)) (f : Channel → Except String Unit) : List (Channel × Except String Unit) :=
  forwardLoop c f (mapLookup m c)

/-- Observable outcome of one inbound POST to /bridge: response status, which
processing steps ran, the final message (none when the rewrite pass aborted),
and the attempted deliveries with their outcomes. -/
structure HandlerResult where
  status : Nat
  iconFetchAttempted : Bool
  mentionRewriteAttempted : Bool
  finalMessage : Option SlackMessage
  deliveries : List (Channel × Except String Unit)

/-- The /bridge POST handler (lines 186-210): build the message from the form
fields, record status 200 immediately, then drop on bad token, drop on
username slackbot, else fetch icon (result ignored), rewrite mentions, and
forward to the peers. `registry` is the per-team user-info capability.
When the rewrite pass aborts on the nil-user dereference, the panic reaches
the Recovery middleware installed by `gin.Default()`; since `c.Status(200)`
only records the code and nothing was flushed, Recovery aborts with status
500, which is the response the poster observes in that branch. -/
def handleBridge (cfg : Configuration) (registry : String → String → LookupResult)
    (transport : Channel → HttpResult)
    (tId cId uName text tok : String) : HandlerResult :=
  let msg := mkInboundMessage tId cId uName text
  if !(msg.channel.VerifyToken cfg tok) then
    { status := 200, iconFetchAttempted := false, mentionRewriteAttempted := false,
      finalMessage := some msg, deliveries := [] }
  else if msg.username == "slackbot" then
    { status := 200, iconFetchAttempted := false, mentionRewriteAttempted := false,
      finalMessage := some msg, deliveries := [] }
  else
    let msg1 := (SlackMessage.FetchUserIcon (registry tId) msg).1
    match SlackMessage.RewriteMentions (registry tId) msg1 with
    | none =>
      { status := 500, iconFetchAttempted := true, mentionRewriteAttempted := true,
        finalMessage := none, deliveries := [] }
    | some msg2 =>
      { status := 200, iconFetchAttempted := true, mentionRewriteAttempted := true,
        finalMessage := some msg2,
        deliveries := Channel.ForwardRun msg2.channel cfg.channelMap
          (fun ch => Channel.WebhookPostMessage ch (transport ch)) }

/-- Demo channel T1/C1. -/
def t1c1 : Channel := { teamId := "T1", channelId := "C1" }

/-- Demo channel T2/C2. -/
def t2c2 : Channel := { teamId := "T2", channelId := "C2" }

/-- Demo channel T3/C3. -/
def t3c3 : Channel := { teamId := "T3", channelId := "C3" }

/-- Demo group [T1/C1, T2/C2, T3/C3]. -/
def demoGroup : List Channel := [t1c1, t2c2, t3c3]

/-- The channel map built from the demo group. -/
def demoMap : List (Channel × List Channel) := [(t1c1, demoGroup), (t2c2, demoGroup), (t3c3, demoGroup)]

/-- Delivery callback that always succeeds. -/
def demoOk : Channel → Except String Unit := fun _ => Except.ok ()

/-- Transport oracle: delivery to T2/C2 hits a network error, every other
delivery gets a 200 response. -/
def demoTransport : Channel → HttpResult :=
  fun ch => if ch = t2c2 then HttpResult.transportFailure "simulated network error"
            else HttpResult.response 200 "200 OK" ""

/-- Registry in which user id U123 resolves to display name alice. -/
def demoRegistryC1 : String → LookupResult :=
  fun i => if i = "U123" then
      LookupResult.found { name := "alice", profile := { imageOriginal := "http://img" } }
    else LookupResult.notFound

/-- Accumulator homomorphism of the scanner: running with accumulator `acc`
prepends `acc` to the result of running with an empty accumulator. -/
theorem scanMentionsCore_acc (f : List Char → Option (List Char)) (l : List Char) :
    ∀ (st : ScanState) (acc : List Char),
    scanMentionsCore f l st acc = (scanMentionsCore f l st []).map (fun r => acc ++ r) := by
  induction l with
  | nil => intro st acc; simp [scanMentionsCore]
  | cons ch rest ih =>
    intro st acc
    cases st with
    | plain =>
      by_cases h : ch = '<'
      · simp only [scanMentionsCore, if_pos h]
        exact ih _ _
      · simp only [scanMentionsCore, if_neg h]
        rw [ih ScanState.plain (acc ++ [ch]), ih ScanState.plain ([] ++ [ch])]
        cases scanMentionsCore f rest ScanState.plain [] <;> simp
    | sawLt =>
      by_cases h : ch = '@'
      · simp only [scanMentionsCore, if_pos h]
        exact ih _ _
      · by_cases h2 : ch = '<'
        · simp only [scanMentionsCore, if_neg h, if_pos h2]
          rw [ih ScanState.sawLt (acc ++ ['<']), ih ScanState.sawLt ([] ++ ['<'])]
          cases scanMentionsCore f rest ScanState.sawLt [] <;> simp
        · simp only [scanMentionsCore, if_neg h, if_neg h2]
          rw [ih ScanState.plain (acc ++ ['<', ch]), ih ScanState.plain ([] ++ ['<', ch])]
          cases scanMentionsCore f rest ScanState.plain [] <;> simp
    | inMention buf =>
      by_cases h : ch = '>'
      · by_cases hb : buf = []
        · simp only [scanMentionsCore, if_pos h, if_pos hb]
          rw [ih ScanState.plain (acc ++ ['<', '@', '>']), ih ScanState.plain ([] ++ ['<', '@', '>'])]
          cases scanMentionsCore f rest ScanState.plain [] <;> simp
        · simp only [scanMentionsCore, if_pos h, if_neg hb]
          cases hf : f buf with
          | some repl =>
            simp only [hf]
            rw [ih ScanState.plain (acc ++ repl), ih ScanState.plain ([] ++ repl)]
            cases scanMentionsCore f rest ScanState.plain [] <;> simp
          | none => simp [hf]
      · simp only [scanMentionsCore, if_neg h]
        exact ih _ _

/-- Text free of the char `<` is copied unchanged by the scanner in the plain
state. -/
theorem scanMentionsCore_plain_append (f : List Char → Option (List Char)) (pre : List Char) :
    ∀ (rest acc : List Char), (∀ c ∈ pre, c ≠ '<') →
    scanMentionsCore f (pre ++ rest) ScanState.plain acc
      = scanMentionsCore f rest ScanState.plain (acc ++ pre) := by
  induction pre with
  | nil => intro rest acc _; simp
  | cons c pre ih =>
    intro rest acc h
    have hc : c ≠ '<' := h c (by simp)
    simp only [List.cons_append, scanMentionsCore, if_neg hc, List.append_eq]
    rw [ih rest (acc ++ [c]) (fun d hd => h d (by simp [hd]))]
    rw [List.append_cons acc c pre]

/-- Chars other than `>` are accumulated into the pending mention buffer. -/
theorem scanMentionsCore_inMention_append (f : List Char → Option (List Char)) (inner : List Char) :
    ∀ (rest buf acc : List Char), (∀ c ∈ inner, c ≠ '>') →
    scanMentionsCore f (inner ++ rest) (ScanState.inMention buf) acc
      = scanMentionsCore f rest (ScanState.inMention (buf ++ inner)) acc := by
  induction inner with
  | nil => intro rest buf acc _; simp
  | cons c inner ih =>
    intro rest buf acc h
    have hc : c ≠ '>' := h c (by simp)
    simp only [List.cons_append, scanMentionsCore, if_neg hc, List.append_eq]
    rw [ih rest (buf ++ [c]) acc (fun d hd => h d (by simp [hd]))]
    rw [List.append_cons buf c inner]

/-- Decomposition of the replacement pass at a match: text made of a prefix
without `<`, a complete mention token, and a remainder is rewritten to the
prefix, the callback replacement, and the rewritten remainder. -/
theorem scanMentions_match (f : List Char → Option (List Char)) (pre inner post repl : List Char)
    (hpre : ∀ c ∈ pre, c ≠ '<') (hinner : ∀ c ∈ inner, c ≠ '>')
    (hne : inner ≠ []) (hf : f inner = some repl) :
    scanMentions f (pre ++ ('<' :: '@' :: (inner ++ ('>' :: post))))
      = (scanMentions f post).map (fun r => (pre ++ repl) ++ r) := by
  unfold scanMentions
  rw [scanMentionsCore_plain_append f pre _ [] hpre]
  simp only [List.nil_append]
  have step1 : scanMentionsCore f ('<' :: '@' :: (inner ++ ('>' :: post))) ScanState.plain pre
      = scanMentionsCore f (inner ++ ('>' :: post)) (ScanState.inMention []) pre := by
    simp [scanMentionsCore]
  rw [step1, scanMentionsCore_inMention_append f inner _ [] pre hinner]
  simp only [List.nil_append]
  have step2 : scanMentionsCore f ('>' :: post) (ScanState.inMention inner) pre
      = scanMentionsCore f post ScanState.plain (pre ++ repl) := by
    simp [scanMentionsCore, if_neg hne, hf]
  rw [step2, scanMentionsCore_acc f post ScanState.plain (pre ++ repl)]

/-- The segment list of `strings.Split` is never empty. -/
theorem splitOnBar_ne_nil (l : List Char) : splitOnBar l ≠ [] := by
  induction l with
  | nil => simp [splitOnBar]
  | cons c rest ih =>
    simp only [splitOnBar]
    cases h : splitOnBar rest with
    | nil => simp
    | cons seg segs => by_cases hc : c = '|' <;> simp [hc]

/-- Splitting on `|` peels off a bar-free prefix as the first segment. -/
theorem splitOnBar_append (idc : List Char) (rest : List Char) (h : ∀ c ∈ idc, c ≠ '|') :
    splitOnBar (idc ++ '|' :: rest) = idc :: splitOnBar rest := by
  induction idc with
  | nil =>
    obtain ⟨seg, segs, he⟩ := List.exists_cons_of_ne_nil (splitOnBar_ne_nil rest)
    simp only [List.nil_append, splitOnBar, he]
    simp
  | cons c idc ih =>
    have hc : c ≠ '|' := h c (by simp)
    have ih2 := ih (fun d hd => h d (by simp [hd]))
    simp only [List.cons_append, splitOnBar, List.append_eq]
    rw [ih2]
    simp [hc]

/-- C8: a mention token carrying an inline display name is replaced by `@`
followed by the second split segment regardless of the registry state; the
non-matching prefix is emitted unchanged and the pass continues left to right
after the token, over non-overlapping matches. -/
theorem rewriteMentions_inline_name_pass (lookup : String → LookupResult) (pre inner post : List Char)
    (hpre : ∀ c ∈ pre, c ≠ '<') (hinner : ∀ c ∈ inner, c ≠ '>')
    (hbar : inner.contains '|' = true) :
    scanMentions (rewriteMatch lookup) (pre ++ ('<' :: '@' :: (inner ++ ('>' :: post))))
      = (scanMentions (rewriteMatch lookup) post).map
          (fun r => (pre ++ ('@' :: (splitOnBar inner).getD 1 [])) ++ r) := by
  have hmem : '|' ∈ inner := by simpa using hbar
  have hne : inner ≠ [] := List.ne_nil_of_mem hmem
  exact scanMentions_match _ pre inner post _ hpre hinner hne (by rw [rewriteMatch, if_pos hbar])

/-- Witness for C8: in `hi <@U1|al>!` the token becomes `@al` while the
surrounding text is untouched, with a registry that knows no user. -/
theorem rewriteMentions_inline_name_pass_witness :
    scanMentions (rewriteMatch (fun _ => LookupResult.notFound)) ("hi <@U1|al>!".toList)
      = some ("hi @al!".toList) := by
  have h := rewriteMentions_inline_name_pass (fun _ => LookupResult.notFound)
      ("hi ".toList) ("U1|al".toList) ("!".toList) (by decide) (by decide) (by decide)
  exact h.trans (by decide)

/-- C10: a mention token with more than one bar separator is replaced by `@`
followed by only the segment between the first and the second bar; later
segments are discarded. -/
theorem rewriteMentions_multi_bar_segment (lookup : String → LookupResult) (idc name extra : List Char)
    (h1 : ∀ c ∈ idc, c ≠ '|') (h2 : ∀ c ∈ name, c ≠ '|')
    (h3 : ∀ c ∈ idc, c ≠ '>') (h4 : ∀ c ∈ name, c ≠ '>') (h5 : ∀ c ∈ extra, c ≠ '>') :
    scanMentions (rewriteMatch lookup)
        ('<' :: '@' :: ((idc ++ '|' :: (name ++ '|' :: extra)) ++ ('>' :: [])))
      = some ('@' :: name) := by
  have hmem : '|' ∈ idc ++ '|' :: (name ++ '|' :: extra) := by simp
  have hne : idc ++ '|' :: (name ++ '|' :: extra) ≠ [] := List.ne_nil_of_mem hmem
  have hin : ∀ c ∈ idc ++ '|' :: (name ++ '|' :: extra), c ≠ '>' := by
    intro c hc
    rcases List.mem_append.mp hc with h | h
    · exact h3 c h
    · rcases List.mem_cons.mp h with h | h
      · subst h; decide
      · rcases List.mem_append.mp h with h | h
        · exact h4 c h
        · rcases List.mem_cons.mp h with h | h
          · subst h; decide
          · exact h5 c h
  have hsplit : (splitOnBar (idc ++ '|' :: (name ++ '|' :: extra))).getD 1 [] = name := by
    rw [splitOnBar_append idc _ h1, splitOnBar_append name extra h2]
    rfl
  have hmatch : rewriteMatch lookup (idc ++ '|' :: (name ++ '|' :: extra)) = some ('@' :: name) := by
    have hb : (idc ++ '|' :: (name ++ '|' :: extra)).contains '|' = true := by
      simp [hmem]
    rw [rewriteMatch, if_pos hb, hsplit]
  have hfinal := scanMentions_match (rewriteMatch lookup) [] (idc ++ '|' :: (name ++ '|' :: extra))
      [] ('@' :: name) (by simp) hin hne hmatch
  rw [show scanMentions (rewriteMatch lookup) ([] : List Char) = some [] from rfl] at hfinal
  simpa using hfinal

/-- Witness for C10: `<@U123|alice|extra>` rewrites to `@alice`. -/
theorem rewriteMentions_multi_bar_segment_witness :
    scanMentions (rewriteMatch (fun _ => LookupResult.notFound)) ("<@U123|alice|extra>".toList)
      = some ("@alice".toList) := by
  have h := rewriteMentions_multi_bar_segment (fun _ => LookupResult.notFound)
      ("U123".toList) ("alice".toList) ("extra".toList)
      (by decide) (by decide) (by decide) (by decide) (by decide)
  exact h.trans (by decide)

/-- C1 is a code defect, evaluated here: for message text `<@U123>` with a
registry in which U123 resolves to display name alice, the rewriter emits
`@U123` instead of `@alice` (the err == nil branch logs "Unable to map" and
keeps the id); with a registry in which the lookup fails, the rewriter
dereferences the nil user and aborts instead of leaving `@U123`. -/
theorem rewriteMentions_inverted_branch_eval :
    SlackMessage.RewriteMentions demoRegistryC1 (mkInboundMessage "T1" "C1" "bob" "<@U123>")
        = some (mkInboundMessage "T1" "C1" "bob" "@U123")
      ∧ SlackMessage.RewriteMentions (fun _ => LookupResult.notFound)
          (mkInboundMessage "T1" "C1" "bob" "<@U123>") = none :=
  ⟨rfl, rfl⟩

/-- Keys of an appended map. -/
theorem keysOf_append (m1 m2 : List (Channel × List Channel)) :
    keysOf (m1 ++ m2) = keysOf m1 ++ keysOf m2 := by
  simp [keysOf]

/-- Keys of the pairs one group contributes are the group itself. -/
theorem keysOf_pairs (full rest : List Channel) :
    keysOf (rest.map (fun c => (c, full))) = rest := by
  simp only [keysOf, List.map_map]
  show List.map (fun c => c) rest = rest
  simp

/-- The Go presence test agrees with key membership. -/
theorem hasKey_true_iff (m : List (Channel × List Channel)) (c : Channel) :
    hasKey m c = true ↔ c ∈ keysOf m := by
  simp [hasKey, keysOf, List.any_eq_true, List.mem_map]

/-- Characterisation of the inner construction loop: it succeeds exactly when
the group has no repeated channel and no channel already claimed by the map,
and then appends one entry per channel. -/
theorem addGroup_eq_some_iff (full : List Channel) : ∀ (rest : List Channel) (m m' : List (Channel × List Channel)),
    addGroup full rest m = some m' ↔
      (rest.Nodup ∧ (∀ c ∈ rest, c ∉ keysOf m) ∧ m' = m ++ rest.map (fun c => (c, full))) := by
  intro rest
  induction rest with
  | nil =>
    intro m m'
    simp [addGroup, eq_comm]
  | cons ch rest ih =>
    intro m m'
    by_cases hk : hasKey m ch = true
    · have hch : ch ∈ keysOf m := (hasKey_true_iff m ch).mp hk
      simp only [addGroup, if_pos hk]
      constructor
      · intro h; simp at h
      · rintro ⟨-, hmem, -⟩
        exact absurd hch (hmem ch (by simp))
    · have hch : ch ∉ keysOf m := fun hmem => hk ((hasKey_true_iff m ch).mpr hmem)
      simp only [addGroup, if_neg hk]
      rw [ih (m ++ [(ch, full)]) m']
      constructor
      · rintro ⟨hnd, hmem, heq⟩
        have hchrest : ch ∉ rest := by
          intro hc
          have h2 := hmem ch hc
          rw [keysOf_append] at h2
          simp [keysOf] at h2
        refine ⟨List.nodup_cons.mpr ⟨hchrest, hnd⟩, ?_, ?_⟩
        · intro c hc
          rcases List.mem_cons.mp hc with rfl | hc2
          · exact hch
          · intro hmk
            have h2 := hmem c hc2
            rw [keysOf_append] at h2
            exact h2 (List.mem_append_left _ hmk)
        · rw [heq]
          simp
      · rintro ⟨hnd, hmem, heq⟩
        have hchrest : ch ∉ rest := (List.nodup_cons.mp hnd).1
        refine ⟨(List.nodup_cons.mp hnd).2, ?_, ?_⟩
        · intro c hc
          rw [keysOf_append]
          intro hmk
          rcases List.mem_append.mp hmk with h2 | h2
          · exact hmem c (List.mem_cons_of_mem _ hc) h2
          · simp [keysOf] at h2
            subst h2
            exact hchrest hc
        · rw [heq]
          simp

/-- Characterisation of the whole construction: it succeeds exactly when no
channel is repeated across (or inside) the groups and none is already in the
accumulated map, and then appends the pairs of every group in order. -/
theorem buildChannelMapAux_eq_some_iff : ∀ (gs : List (List Channel)) (m m' : List (Channel × List Channel)),
    buildChannelMapAux gs m = some m' ↔
      ((gs.join).Nodup ∧ (∀ c ∈ gs.join, c ∉ keysOf m) ∧ m' = m ++ groupPairs gs) := by
  intro gs
  induction gs with
  | nil =>
    intro m m'
    simp [buildChannelMapAux, groupPairs, eq_comm]
  | cons g gs ih =>
    intro m m'
    have hjoin : (g :: gs).join = g ++ gs.join := rfl
    cases hag : addGroup g g m with
    | none =>
      have hlhs : buildChannelMapAux (g :: gs) m = none := by
        simp [buildChannelMapAux, hag]
      rw [hlhs]
      constructor
      · intro h; simp at h
      · rintro ⟨hnd, hmem, -⟩
        rw [hjoin, List.nodup_append] at hnd
        have hsome : addGroup g g m = some (m ++ g.map (fun c => (c, g))) := by
          rw [addGroup_eq_some_iff]
          refine ⟨hnd.1, ?_, rfl⟩
          intro c hc
          exact hmem c (by rw [hjoin]; exact List.mem_append_left _ hc)
        rw [hag] at hsome
        exact Option.noConfusion hsome
    | some m1 =>
      have hlhs : buildChannelMapAux (g :: gs) m = buildChannelMapAux gs m1 := by
        simp [buildChannelMapAux, hag]
      rw [hlhs, ih m1 m']
      rw [addGroup_eq_some_iff] at hag
      obtain ⟨hgnd, hgdisj, hm1⟩ := hag
      have hkeys1 : keysOf m1 = keysOf m ++ g := by
        rw [hm1, keysOf_append, keysOf_pairs]
      constructor
      · rintro ⟨hjnd, hjdisj, heq⟩
        refine ⟨?_, ?_, ?_⟩
        · rw [hjoin, List.nodup_append]
          refine ⟨hgnd, hjnd, ?_⟩
          intro a hag2 hajoin
          have h2 := hjdisj a hajoin
          rw [hkeys1] at h2
          exact h2 (List.mem_append_right _ hag2)
        · intro c hc
          rw [hjoin] at hc
          rcases List.mem_append.mp hc with h2 | h2
          · exact hgdisj c h2
          · have h3 := hjdisj c h2
            rw [hkeys1] at h3
            intro h4
            exact h3 (List.mem_append_left _ h4)
        · rw [heq, hm1]
          simp [groupPairs]
      · rintro ⟨hjnd, hjmem, heq⟩
        rw [hjoin, List.nodup_append] at hjnd
        refine ⟨hjnd.2.1, ?_, ?_⟩
        · intro c hc
          rw [hkeys1]
          intro h4
          rcases List.mem_append.mp h4 with h5 | h5
          · exact hjmem c (by rw [hjoin]; exact List.mem_append_right _ hc) h5
          · exact hjnd.2.2 h5 hc
        · rw [heq, hm1]
          simp [groupPairs]

/-- Keys of the constructed pairs list are the joined groups. -/
theorem keysOf_groupPairs : ∀ (gs : List (List Channel)), keysOf (groupPairs gs) = gs.join := by
  intro gs
  induction gs with
  | nil => rfl
  | cons g gs ih =>
    show keysOf (g.map (fun c => (c, g)) ++ groupPairs gs) = g ++ gs.join
    rw [keysOf_append, keysOf_pairs, ih]

/-- A member group of a duplicate-free configuration is itself
duplicate-free. -/
theorem nodup_of_mem_groups (groups : List (List Channel)) (g : List Channel)
    (hnd : (groups.join).Nodup) (hg : g ∈ groups) : g.Nodup := by
  induction groups with
  | nil => cases hg
  | cons g0 gs ih =>
    rw [show (g0 :: gs).join = g0 ++ gs.join from rfl, List.nodup_append] at hnd
    rcases List.mem_cons.mp hg with h | h
    · rw [h]; exact hnd.1
    · exact ih hnd.2.1 h

/-- On a map with unique keys, lookup of a stored key finds its entry. -/
theorem find?_of_nodup_keys : ∀ (m : List (Channel × List Channel)) (c : Channel) (g : List Channel),
    (keysOf m).Nodup → (c, g) ∈ m → m.find? (fun p => decide (p.1 = c)) = some (c, g) := by
  intro m
  induction m with
  | nil => intro c g _ h; cases h
  | cons p m ih =>
    intro c g hnd hmem
    have hnd2 := List.nodup_cons.mp (show (p.1 :: keysOf m).Nodup from hnd)
    by_cases hc : p.1 = c
    · rw [List.find?_cons_of_pos _ (by simp [hc])]
      rcases List.mem_cons.mp hmem with h | h
      · rw [← h]
      · exfalso
        apply hnd2.1
        rw [hc]
        exact List.mem_map_of_mem Prod.fst h
    · rw [List.find?_cons_of_neg _ (by simp [hc])]
      apply ih c g hnd2.2
      rcases List.mem_cons.mp hmem with h | h
      · exfalso; apply hc; rw [← h]
      · exact h

/-- Every channel of every configured group has its pair in the constructed
pairs list. -/
theorem mem_groupPairs : ∀ (groups : List (List Channel)) (g : List Channel) (c : Channel),
    g ∈ groups → c ∈ g → (c, g) ∈ groupPairs groups := by
  intro groups
  induction groups with
  | nil => intro g c h; cases h
  | cons g0 gs ih =>
    intro g c hg hc
    show (c, g) ∈ g0.map (fun c => (c, g0)) ++ groupPairs gs
    rcases List.mem_cons.mp hg with h | h
    · subst h
      exact List.mem_append_left _ (List.mem_map_of_mem _ hc)
    · exact List.mem_append_right _ (ih g c h hc)

/-- After a successful construction, looking up a member channel returns its
group's full membership list. -/
theorem mapLookup_of_build (groups : List (List Channel)) (m : List (Channel × List Channel))
    (g : List Channel) (c : Channel)
    (hb : buildChannelMap groups = some m) (hg : g ∈ groups) (hc : c ∈ g) :
    mapLookup m c = g := by
  rw [buildChannelMap, buildChannelMapAux_eq_some_iff] at hb
  obtain ⟨hnd, -, heq⟩ := hb
  subst heq
  have hkeys : (keysOf ([] ++ groupPairs groups)).Nodup := by
    rw [List.nil_append, keysOf_groupPairs]; exact hnd
  have hmem : (c, g) ∈ [] ++ groupPairs groups := by
    rw [List.nil_append]; exact mem_groupPairs groups g c hg hc
  simp only [mapLookup]
  rw [find?_of_nodup_keys _ c g hkeys hmem]

/-- C4: construction of the channel-group table fails fatally when any
channel appears more than once across the configured groups (including twice
within one group); a successfully constructed table has pairwise distinct
keys, so each channel has one unambiguous entry, and the configured groups
are duplicate-free. -/
theorem channelMap_construction_duplicate_fatal (groups : List (List Channel)) :
    (¬ (groups.join).Nodup → buildChannelMap groups = none)
    ∧ (∀ m, buildChannelMap groups = some m → ((keysOf m).Nodup ∧ (groups.join).Nodup)) := by
  constructor
  · intro hdup
    cases hb : buildChannelMap groups with
    | none => rfl
    | some m =>
      rw [buildChannelMap, buildChannelMapAux_eq_some_iff] at hb
      exact absurd hb.1 hdup
  · intro m hb
    rw [buildChannelMap, buildChannelMapAux_eq_some_iff] at hb
    obtain ⟨hnd, -, heq⟩ := hb
    subst heq
    rw [List.nil_append, keysOf_groupPairs]
    exact ⟨hnd, hnd⟩

/-- Witness for C4: a channel repeated across two groups makes construction
fail. -/
theorem channelMap_construction_duplicate_fatal_witness :
    buildChannelMap [[t1c1, t2c2], [t1c1, t3c3]] = none :=
  (channelMap_construction_duplicate_fatal [[t1c1, t2c2], [t1c1, t3c3]]).1 (by decide)

/-- The channels the forwarding loop attempts are exactly the group list with
the origin filtered out, whatever the delivery outcomes. -/
theorem forwardLoop_map_fst (c : Channel) (f : Channel → Except String Unit) :
    ∀ l : List Channel, (forwardLoop c f l).map Prod.fst = l.filter (fun other => decide (c ≠ other)) := by
  intro l
  induction l with
  | nil => rfl
  | cons o rest ih =>
    by_cases h : c = o
    · have hd : decide (c ≠ o) = false := by simp [h]
      simp only [forwardLoop, if_pos h, List.filter_cons, hd]
      simpa using ih
    · have hd : decide (c ≠ o) = true := by simp [h]
      simp only [forwardLoop, if_neg h, List.filter_cons, hd, List.map_cons]
      simpa using ih

/-- The attempted peers of a forwarding run are the Forward target list,
independently of the delivery callback. -/
theorem forwardRun_map_fst (c : Channel) (m : List (Channel × List Channel)) (f : Channel → Except String Unit) :
    (Channel.ForwardRun c m f).map Prod.fst = Channel.Forward c m := by
  rw [Channel.ForwardRun, Channel.Forward, forwardLoop_map_fst]

/-- C3: for a message whose origin channel belongs to a configured group of a
successfully constructed table, a forwarding run attempts exactly one
delivery to each other member of the group, and every attempted delivery goes
to a group member other than the origin. -/
theorem forward_targets_each_other_peer_once (groups : List (List Channel))
    (m : List (Channel × List Channel)) (g : List Channel) (c : Channel)
    (f : Channel → Except String Unit)
    (h1 : buildChannelMap groups = some m) (h2 : g ∈ groups) (h3 : c ∈ g) :
    (∀ d, d ∈ g → d ≠ c → List.count d ((Channel.ForwardRun c m f).map Prod.fst) = 1)
    ∧ (∀ d, d ∈ (Channel.ForwardRun c m f).map Prod.fst → (d ∈ g ∧ d ≠ c)) := by
  have hjnd : (groups.join).Nodup := by
    rw [buildChannelMap, buildChannelMapAux_eq_some_iff] at h1
    exact h1.1
  have hgnd : g.Nodup := nodup_of_mem_groups groups g hjnd h2
  have hmap : (Channel.ForwardRun c m f).map Prod.fst = g.filter (fun other => decide (c ≠ other)) := by
    rw [forwardRun_map_fst, Channel.Forward, mapLookup_of_build groups m g c h1 h2 h3]
  constructor
  · intro d hd hdc
    rw [hmap]
    apply List.count_eq_one_of_mem (hgnd.filter _)
    exact List.mem_filter.mpr ⟨hd, by simp [Ne.symm hdc]⟩
  · intro d hd
    rw [hmap] at hd
    have h4 := List.mem_filter.mp hd
    refine ⟨h4.1, ?_⟩
    have h5 := h4.2
    simp at h5
    exact Ne.symm h5

/-- Witness for C3: for T1/C1 grouped with [T1/C1, T2/C2, T3/C3], exactly one
attempt each for T2/C2 and T3/C3, and none for T1/C1 itself. -/
theorem forward_targets_each_other_peer_once_witness :
    List.count t2c2 ((Channel.ForwardRun t1c1 demoMap demoOk).map Prod.fst) = 1
    ∧ List.count t3c3 ((Channel.ForwardRun t1c1 demoMap demoOk).map Prod.fst) = 1
    ∧ t1c1 ∉ (Channel.ForwardRun t1c1 demoMap demoOk).map Prod.fst := by
  have h := forward_targets_each_other_peer_once [demoGroup] demoMap demoGroup t1c1 demoOk
      (by decide) (by decide) (by decide)
  refine ⟨h.1 t2c2 (by decide) (by decide), h.1 t3c3 (by decide) (by decide), fun hc => ?_⟩
  exact (h.2 t1c1 hc).2 rfl

/-- C5: a forwarding run attempts every peer of the Forward target list in
order whatever the per-peer outcomes are, so one peer's delivery failure never
prevents the remaining attempts, and the run itself returns a plain result
list, raising nothing to its caller; concretely, with T2/C2 failing on a
network error, T3/C3 is still delivered. -/
theorem forward_best_effort_per_peer :
    (∀ (m : List (Channel × List Channel)) (c : Channel) (f : Channel → Except String Unit),
      (Channel.ForwardRun c m f).map Prod.fst = Channel.Forward c m)
    ∧ Channel.ForwardRun t1c1 demoMap (fun ch => Channel.WebhookPostMessage ch (demoTransport ch))
        = [(t2c2, Except.error "simulated network error"), (t3c3, Except.ok ())] :=
  ⟨fun m c f => forwardRun_map_fst c m f, rfl⟩

/-- C2 is refuted at this input: the channel T9/C9 is absent from the
outbound token table, yet presenting the empty token verifies, because the Go
map read returns the zero-value empty string which compares equal. -/
theorem verify_absent_channel_empty_token_counterexample :
    (Configuration.mk [] []).outboundTokens.find? (fun p => decide (p.1 = Channel.mk "T9" "C9")) = none
    ∧ Channel.VerifyToken (Channel.mk "T9" "C9") (Configuration.mk [] []) "" = true :=
  ⟨rfl, by decide⟩

/-- C2 amended: for every channel absent from the outbound token table,
verification fails for every presented token other than the empty string. -/
theorem verify_absent_channel_nonempty_token_false (cfg : Configuration) (c : Channel) (token : String)
    (habs : cfg.outboundTokens.find? (fun p => decide (p.1 = c)) = none)
    (hne : token ≠ "") :
    Channel.VerifyToken c cfg token = false := by
  rw [Channel.VerifyToken]
  have h : lookupTokens cfg.outboundTokens c = "" := by
    simp only [lookupTokens, habs]
  rw [h]
  simp [Ne.symm hne]

/-- Witness for the amended C2: an absent channel rejects the token x. -/
theorem verify_absent_channel_nonempty_token_false_witness :
    Channel.VerifyToken (Channel.mk "T9" "C9") (Configuration.mk [] []) "x" = false :=
  verify_absent_channel_nonempty_token_false (Configuration.mk [] []) (Channel.mk "T9" "C9") "x"
    rfl (by decide)

/-- C6 is refuted at this input: a verified, non-slackbot POST whose text is
a bare mention with a failing registry lookup makes the rewrite pass abort on
the nil user, and the poster receives 500 from the Recovery middleware, not a
success status. -/
theorem handler_rewrite_abort_500_counterexample :
    (handleBridge (Configuration.mk demoMap [(t1c1, "sek")]) (fun _ _ => LookupResult.notFound)
        (fun _ => HttpResult.response 200 "200 OK" "") "T1" "C1" "bob" "<@U123>" "sek").status = 500
    ∧ (handleBridge (Configuration.mk demoMap [(t1c1, "sek")]) (fun _ _ => LookupResult.notFound)
        (fun _ => HttpResult.response 200 "200 OK" "") "T1" "C1" "bob" "<@U123>" "sek").status ≠ 200 :=
  ⟨rfl, by decide⟩

/-- C6 amended: the bridge handler responds 200 to every POST — the status is
recorded before verification, and verification failure, slackbot suppression
and delivery failures never change it — except when the mention rewrite
aborts on the nil-user dereference, in which case the response is 500. -/
theorem handler_status_200_unless_rewrite_aborts (cfg : Configuration)
    (registry : String → String → LookupResult) (transport : Channel → HttpResult)
    (tId cId uName text tok : String) :
    (handleBridge cfg registry transport tId cId uName text tok).status =
      if (handleBridge cfg registry transport tId cId uName text tok).finalMessage.isSome
      then 200 else 500 := by
  simp only [handleBridge]
  split
  · rfl
  · split
    · rfl
    · split <;> rfl

/-- C7: a verified message whose sender username is exactly slackbot is
dropped: no icon fetch, no mention rewrite, no deliveries, and the response
is still 200. -/
theorem slackbot_suppression (cfg : Configuration) (registry : String → String → LookupResult)
    (transport : Channel → HttpResult) (tId cId text tok : String)
    (hv : Channel.VerifyToken (Channel.mk tId cId) cfg tok = true) :
    (handleBridge cfg registry transport tId cId "slackbot" text tok).deliveries = []
    ∧ (handleBridge cfg registry transport tId cId "slackbot" text tok).iconFetchAttempted = false
    ∧ (handleBridge cfg registry transport tId cId "slackbot" text tok).mentionRewriteAttempted = false
    ∧ (handleBridge cfg registry transport tId cId "slackbot" text tok).status = 200 := by
  have hch : (mkInboundMessage tId cId "slackbot" text).channel = Channel.mk tId cId := rfl
  have hh : handleBridge cfg registry transport tId cId "slackbot" text tok =
      { status := 200, iconFetchAttempted := false, mentionRewriteAttempted := false,
        finalMessage := some (mkInboundMessage tId cId "slackbot" text), deliveries := [] } := by
    simp only [handleBridge, hch, hv]
    simp
    intro hcon
    exact absurd rfl hcon
  rw [hh]
  exact ⟨rfl, rfl, rfl, rfl⟩

/-- Witness for C7: a correctly-tokenised slackbot POST yields no processing
and a 200 status. -/
theorem slackbot_suppression_witness :
    (handleBridge (Configuration.mk demoMap [(t1c1, "sek")]) (fun _ _ => LookupResult.notFound)
        (fun _ => HttpResult.response 200 "200 OK" "") "T1" "C1" "slackbot" "hello" "sek").deliveries = []
    ∧ (handleBridge (Configuration.mk demoMap [(t1c1, "sek")]) (fun _ _ => LookupResult.notFound)
        (fun _ => HttpResult.response 200 "200 OK" "") "T1" "C1" "slackbot" "hello" "sek").iconFetchAttempted = false
    ∧ (handleBridge (Configuration.mk demoMap [(t1c1, "sek")]) (fun _ _ => LookupResult.notFound)
        (fun _ => HttpResult.response 200 "200 OK" "") "T1" "C1" "slackbot" "hello" "sek").mentionRewriteAttempted = false
    ∧ (handleBridge (Configuration.mk demoMap [(t1c1, "sek")]) (fun _ _ => LookupResult.notFound)
        (fun _ => HttpResult.response 200 "200 OK" "") "T1" "C1" "slackbot" "hello" "sek").status = 200 :=
  slackbot_suppression (Configuration.mk demoMap [(t1c1, "sek")]) (fun _ _ => LookupResult.notFound)
    (fun _ => HttpResult.response 200 "200 OK" "") "T1" "C1" "hello" "sek" (by decide)

/-- A successful rewrite pass only changes the message text. -/
theorem rewriteMentions_preserves_fields (lookup : String → LookupResult) (msg msg2 : SlackMessage)
    (h : SlackMessage.RewriteMentions lookup msg = some msg2) :
    msg2.channel = msg.channel ∧ msg2.username = msg.username ∧ msg2.icon = msg.icon := by
  simp only [SlackMessage.RewriteMentions] at h
  cases hs : scanMentions (rewriteMatch lookup) msg.text.toList with
  | none => rw [hs] at h; exact Option.noConfusion h
  | some cs =>
    rw [hs] at h
    injection h with h2
    subst h2
    exact ⟨rfl, rfl, rfl⟩

/-- C9: when the avatar lookup for the sender fails, the message icon stays
unset (the empty string it was initialised with), the failure is ignored by
the handler, and forwarding still runs for the message. -/
theorem avatar_lookup_failure_nonfatal (cfg : Configuration) (registry : String → String → LookupResult)
    (transport : Channel → HttpResult) (tId cId uName text tok : String) (msg2 : SlackMessage)
    (hreg : registry tId uName = LookupResult.notFound)
    (hv : Channel.VerifyToken (Channel.mk tId cId) cfg tok = true)
    (hu : uName ≠ "slackbot")
    (hrw : SlackMessage.RewriteMentions (registry tId) (mkInboundMessage tId cId uName text) = some msg2) :
    msg2.icon = ""
    ∧ handleBridge cfg registry transport tId cId uName text tok =
      { status := 200, iconFetchAttempted := true, mentionRewriteAttempted := true,
        finalMessage := some msg2,
        deliveries := Channel.ForwardRun msg2.channel cfg.channelMap
          (fun ch => Channel.WebhookPostMessage ch (transport ch)) } := by
  have hicon : msg2.icon = "" := by
    have hpres := rewriteMentions_preserves_fields (registry tId) _ _ hrw
    rw [hpres.2.2]
    rfl
  have hub : (uName == "slackbot") = false := by
    simp [hu]
  have hch : (mkInboundMessage tId cId uName text).channel = Channel.mk tId cId := rfl
  have hun : (mkInboundMessage tId cId uName text).username = uName := rfl
  have hfetch : (SlackMessage.FetchUserIcon (registry tId) (mkInboundMessage tId cId uName text)).1
      = mkInboundMessage tId cId uName text := by
    simp only [SlackMessage.FetchUserIcon, hun, hreg]
  refine ⟨hicon, ?_⟩
  simp only [handleBridge, hch, hun, hv, hub, hfetch, hrw]
  simp

/-- Witness for C9: with a registry that knows no user, the icon stays empty
and both peers of the demo group are still delivered to. -/
theorem avatar_lookup_failure_nonfatal_witness :
    (mkInboundMessage "T1" "C1" "bob" "hello").icon = ""
    ∧ handleBridge (Configuration.mk demoMap [(t1c1, "sek")]) (fun _ _ => LookupResult.notFound)
        (fun _ => HttpResult.response 200 "200 OK" "") "T1" "C1" "bob" "hello" "sek" =
      { status := 200, iconFetchAttempted := true, mentionRewriteAttempted := true,
        finalMessage := some (mkInboundMessage "T1" "C1" "bob" "hello"),
        deliveries := Channel.ForwardRun (mkInboundMessage "T1" "C1" "bob" "hello").channel demoMap
          (fun ch => Channel.WebhookPostMessage ch (HttpResult.response 200 "200 OK" "")) } :=
  avatar_lookup_failure_nonfatal (Configuration.mk demoMap [(t1c1, "sek")])
    (fun _ _ => LookupResult.notFound) (fun _ => HttpResult.response 200 "200 OK" "")
    "T1" "C1" "bob" "hello" "sek" (mkInboundMessage "T1" "C1" "bob" "hello")
    rfl (by decide) (by decide) rfl
